import Mathlib

/-!
Shallow embedding of the SSG static-site generator (Rust) and proofs about
its specification claims.

Strings from the Rust side are modelled as `List Char` (a Rust `char` is a
Unicode scalar value, exactly Lean's `Char`); where the Rust code measures
`str::len()` (UTF-8 bytes) we sum `Char.utf8Size`.
-/

namespace SSG

/-! ## src/types/html_safe.rs -/

/-- One iteration of the `for ch in raw.chars()` loop of `HtmlSafe::escape`:
the replacement pushed for a single character. -/
def escapeChar (c : Char) : List Char :=
  if c = '&' then "&amp;".toList
  else if c = '<' then "&lt;".toList
  else if c = '>' then "&gt;".toList
  else if c = '"' then "&quot;".toList
  else if c = '\'' then "&#x27;".toList
  else [c]

/-- The body of `HtmlSafe::escape`: character-by-character replacement. -/
def escape (raw : List Char) : List Char :=
  raw.flatMap escapeChar

/-- `HtmlSafe` wrapper (a `String` newtype in the source). -/
structure HtmlSafe where
  val : List Char
  deriving DecidableEq, Repr

/-- `HtmlSafe::escape` -/
def HtmlSafe.escape (raw : List Char) : HtmlSafe :=
  ⟨SSG.escape raw⟩

/-- The five metacharacters replaced by `HtmlSafe::escape`. -/
def metaChars : List Char := ['&', '<', '>', '"', '\'']

/-- `HtmlSafe::from_trusted`: wraps the string with no validation or escaping. -/
def HtmlSafe.from_trusted (s : List Char) : HtmlSafe :=
  ⟨s⟩

/-! ## src/error.rs -/

/-- `BuildError` (the `source` payloads of io/image errors carry no
behaviourally relevant data and are dropped). -/
inductive BuildError where
  | ParseFailed (path : String) (message : String)
  | InvalidTag (tag : String) (reason : String)
  | ImageOptFailed (path : String)
  | ContentNotReadable (path : String)
  | OutputNotWritable (path : String)
  | NoValidPosts (path : String)
  | Internal (msg : String)
  deriving DecidableEq, Repr

/-- `BuildError::is_recoverable` -/
def BuildError.is_recoverable : BuildError → Bool
  | .ParseFailed .. => true
  | .InvalidTag .. => true
  | .ImageOptFailed .. => true
  | _ => false

/-! ## src/types/tag.rs -/

/-- Rust `char::is_whitespace`: the Unicode `White_Space` property. -/
def rustIsWhitespace (c : Char) : Bool :=
  c = '\u0009' || c = '\u000A' || c = '\u000B' || c = '\u000C' || c = '\u000D' ||
  c = '\u0020' || c = '\u0085' || c = '\u00A0' || c = '\u1680' ||
  ('\u2000' ≤ c && c ≤ '\u200A') ||
  c = '\u2028' || c = '\u2029' || c = '\u202F' || c = '\u205F' || c = '\u3000'

/-- Rust `str::trim`: strip `White_Space` characters from both ends. -/
def rustTrim (s : List Char) : List Char :=
  ((s.dropWhile rustIsWhitespace).reverse.dropWhile rustIsWhitespace).reverse

/-- Rust `str::len()` on our `List Char` model: total UTF-8 byte count. -/
def utf8Len (s : List Char) : Nat :=
  (s.map Char.utf8Size).sum

/-- `Tag` newtype. -/
structure Tag where
  val : List Char
  deriving DecidableEq, Repr

/-- `Tag::MAX_LENGTH` -/
def Tag.MAX_LENGTH : Nat := 50

/-- `Tag::FORBIDDEN_CHARS` -/
def Tag.FORBIDDEN_CHARS : List Char := ['<', '>', '&', '"', '\'', '/']

/-- `Tag::new` -/
def Tag.new (raw : List Char) : Except BuildError Tag :=
  let trimmed := rustTrim raw
  if trimmed.isEmpty then
    .error (.InvalidTag (String.mk raw) "tag is empty")
  else if utf8Len trimmed > Tag.MAX_LENGTH then
    .error (.InvalidTag (String.mk raw) "tag exceeds 50 characters")
  else if trimmed.any (fun c => Tag.FORBIDDEN_CHARS.contains c) then
    .error (.InvalidTag (String.mk raw) "tag contains HTML special characters")
  else
    .ok ⟨trimmed⟩

/-! ## src/image.rs -/

/-- Rust `str::starts_with` (modelled on the character list; Lean's
`String.startsWith` is not kernel-reducible). -/
def rustStartsWith (s p : String) : Bool :=
  p.toList.isPrefixOf s.toList

/-- `OptimizedImage` -/
structure OptimizedImage where
  rel_path : String
  width : Nat
  height : Nat
  deriving DecidableEq, Repr

/-- `OptimizedImage::external` -/
def OptimizedImage.external (url : String) : OptimizedImage :=
  ⟨url, 0, 0⟩

/-- `OptimizedImage::missing` -/
def OptimizedImage.missing (original_path : String) : OptimizedImage :=
  ⟨original_path, 0, 0⟩

/-- `OptimizedImage::is_external` -/
def OptimizedImage.is_external (o : OptimizedImage) : Bool :=
  rustStartsWith o.rel_path "http://" || rustStartsWith o.rel_path "https://"

/-- The filesystem and image-library state `optimize_image` runs against.
Each field abstracts one external capability the Rust code calls:
`pathExists` is `Path::exists`; `metaMtime p` is
`fs::metadata(p).map(|m| m.modified().unwrap_or(UNIX_EPOCH))` (`none` when
`fs::metadata` itself fails); `fileStem` is
`Path::file_stem().and_then(to_str)`; `decodeDims` is `image::open` plus
`dimensions()` (`none` on decode failure); `resizeDims` is the dimensions
produced by `resize(max_width, u32::MAX, Lanczos3)`; `headerDims` is
`ImageReader::open(...).into_dimensions()` on a cached file; `saveOk` is
whether `save_with_format(...WebP)` succeeds. -/
structure FSState where
  pathExists : String → Bool
  metaMtime : String → Option Nat
  fileStem : String → Option String
  decodeDims : String → Option (Nat × Nat)
  resizeDims : Nat × Nat → Nat → Nat × Nat
  headerDims : String → Option (Nat × Nat)
  saveOk : String → Bool

/-- `Path::join` (modelled as separator concatenation). -/
def pathJoin (a b : String) : String :=
  a ++ "/" ++ b

/-- `read_cached_dimensions`: both failure branches return `Ok` with 0×0. -/
def read_cached_dimensions (fs : FSState) (path : String) (rel_path : String) :
    Except BuildError OptimizedImage :=
  match fs.headerDims path with
  | some (w, h) => .ok ⟨rel_path, w, h⟩
  | none => .ok ⟨rel_path, 0, 0⟩

/-- `optimize_image` as a pure function of the `FSState`. -/
def optimize_image (fs : FSState) (original_src : String)
    (content_dir public_dir : String) (max_width : Nat) :
    Except BuildError OptimizedImage :=
  if rustStartsWith original_src "http://" || rustStartsWith original_src "https://" then
    .ok (OptimizedImage.external original_src)
  else
    let src_path := pathJoin content_dir original_src
    if !fs.pathExists src_path then
      .ok (OptimizedImage.missing original_src)
    else
      match fs.fileStem src_path with
      | none => .error (.Internal ("Invalid image filename: " ++ src_path))
      | some file_stem =>
        let dest_filename := file_stem ++ ".webp"
        let dest_path := pathJoin (pathJoin public_dir "images") dest_filename
        let rel_path := "images/" ++ dest_filename
        let cacheHit :=
          fs.pathExists dest_path &&
            match fs.metaMtime src_path, fs.metaMtime dest_path with
            | some src_mtime, some dest_mtime => dest_mtime ≥ src_mtime
            | _, _ => false
        if cacheHit then
          read_cached_dimensions fs dest_path rel_path
        else
          match fs.decodeDims src_path with
          | none => .error (.ImageOptFailed src_path)
          | some (width, height) =>
            let final_dims :=
              if width > max_width then fs.resizeDims (width, height) max_width
              else (width, height)
            if fs.saveOk dest_path then
              .ok ⟨rel_path, final_dims.1, final_dims.2⟩
            else
              .error (.ImageOptFailed dest_path)

/-- The decode/resize/encode path of `optimize_image` (its cache-miss
branch), named so the cache theorems can refer to it. -/
def process_image (fs : FSState) (src_path dest_path rel_path : String)
    (max_width : Nat) : Except BuildError OptimizedImage :=
  match fs.decodeDims src_path with
  | none => .error (.ImageOptFailed src_path)
  | some (width, height) =>
    let final_dims :=
      if width > max_width then fs.resizeDims (width, height) max_width
      else (width, height)
    if fs.saveOk dest_path then
      .ok ⟨rel_path, final_dims.1, final_dims.2⟩
    else
      .error (.ImageOptFailed dest_path)

/-! ## src/parser.rs : dimension parsing -/

/-- Decimal value of a digit string. -/
def digitsVal (t : List Char) : Nat :=
  t.foldl (fun a c => a * 10 + (c.toNat - '0'.toNat)) 0

/-- The digit part of `u32::from_str`: one or more ASCII digits, rejecting
the empty digit string and values above `u32::MAX`. -/
def parseDigits (t : List Char) : Option Nat :=
  if t.isEmpty then none
  else if t.all Char.isDigit then
    let v := digitsVal t
    if v < 2 ^ 32 then some v else none
  else none

/-- Rust `str::parse::<u32>()` (`u32::from_str`): an optional leading `+`,
then the digit part. -/
def parseU32 (s : List Char) : Option Nat :=
  match s with
  | '+' :: rest => parseDigits rest
  | _ => parseDigits s

/-- The `width="{w}"` attribute text built by `parse_dimensions_or_image`. -/
def widthAttr (w : Nat) : List Char :=
  "width=\"".toList ++ (Nat.repr w).toList ++ ['"']

/-- The `height="{h}"` attribute text built by `parse_dimensions_or_image`. -/
def heightAttr (h : Nat) : List Char :=
  "height=\"".toList ++ (Nat.repr h).toList ++ ['"']

/-- `parse_dimensions_or_image`. Rust splits at the byte index of the first
`x` (`clean.find` then `split_at`); since `x` is one byte, this is exactly
`takeWhile`/`dropWhile` at the first `x` character. -/
def parse_dimensions_or_image (title : List Char) (img_w img_h : Nat) :
    List Char × List Char :=
  let clean := rustTrim title
  let w_str := clean.takeWhile (fun c => c ≠ 'x')
  let rest := clean.dropWhile (fun c => c ≠ 'x')
  let wxh :=
    if rest.isEmpty then none
    else
      match parseU32 w_str, parseU32 rest.tail with
      | some w, some h => some (widthAttr w, heightAttr h)
      | _, _ => none
  match wxh with
  | some p => p
  | none =>
    match parseU32 clean with
    | some w => (widthAttr w, [])
    | none =>
      if img_w > 0 && img_h > 0 then (widthAttr img_w, heightAttr img_h)
      else ([], [])

/-- `is_dimension_spec`. -/
def is_dimension_spec (title : List Char) : Bool :=
  let clean := rustTrim title
  if clean.isEmpty then false
  else
    let w_str := clean.takeWhile (fun c => c ≠ 'x')
    let rest := clean.dropWhile (fun c => c ≠ 'x')
    if !rest.isEmpty then
      (parseU32 w_str).isSome && (parseU32 rest.tail).isSome
    else
      (parseU32 clean).isSome

/-! ## src/parser.rs : the render_markdown event loop -/

/-- The `pulldown_cmark::Event` shapes `render_markdown` distinguishes.
`startImage` carries the `dest_url` and `title` fields it reads (the rest
are ignored via `..`); every event kind the loop does not inspect is
`other` with an opaque payload. -/
inductive MdEvent where
  | startImage (dest_url : List Char) (title : List Char)
  | endImage
  | text (t : List Char)
  | code (t : List Char)
  | html (t : List Char)
  | other (payload : Nat)
  deriving DecidableEq, Repr

/-- The mutable locals of `render_markdown`'s event loop. -/
structure RenderState where
  events : List MdEvent
  in_image : Bool
  image_url : List Char
  image_title : List Char
  image_alt : List Char
  first_image : Bool
  deriving Repr

/-- Initial loop state of `render_markdown`. -/
def initRenderState : RenderState :=
  ⟨[], false, [], [], [], true⟩

/-- `loading="eager" fetchpriority="high" decoding="sync"` -/
def eagerAttrs : List Char :=
  "loading=\"eager\" fetchpriority=\"high\" decoding=\"sync\"".toList

/-- `loading="lazy" decoding="async"` -/
def lazyAttrs : List Char :=
  "loading=\"lazy\" decoding=\"async\"".toList

/-- The `format!` template of the `<figure>` markup pushed at `End(Image)`. -/
def imgHtml (final_src_escaped safe_alt width_attr height_attr title_attr
    loading_attrs : List Char) : List Char :=
  "<figure class=\"image-container\">\n                        <img src=\"".toList ++
  final_src_escaped ++
  "\" alt=\"".toList ++ safe_alt ++ "\" ".toList ++
  width_attr ++ " ".toList ++ height_attr ++ " ".toList ++
  title_attr ++ " ".toList ++ loading_attrs ++
  " />\n                        <figcaption>\n                            <a href=\"".toList ++
  final_src_escaped ++
  "\" target=\"_blank\" class=\"download-link\">[ Download Full Size ]</a>\n                        </figcaption>\n                    </figure>".toList

/-- The `End(TagEnd::Image)` arm of the loop. `opt url` abstracts
`optimize_image(url, ...).unwrap_or_else(|_| OptimizedImage::missing(url))`
(a total function: the `Err` case is absorbed by the fallback). -/
def endImageStep (opt : List Char → OptimizedImage) (relative_root : List Char)
    (s : RenderState) : RenderState :=
  let o := opt s.image_url
  let final_src :=
    if o.is_external then o.rel_path.toList
    else relative_root ++ o.rel_path.toList
  let final_src_escaped := escape final_src
  let wh := parse_dimensions_or_image s.image_title o.width o.height
  let safe_alt := escape s.image_alt
  let title_attr :=
    if !is_dimension_spec s.image_title && !s.image_title.isEmpty then
      "title=\"".toList ++ escape s.image_title ++ ['"']
    else []
  let loading_attrs := if s.first_image then eagerAttrs else lazyAttrs
  let html := imgHtml final_src_escaped safe_alt wh.1 wh.2 title_attr loading_attrs
  { s with
    in_image := false
    first_image := false
    events := s.events ++ [.html html] }

/-- One iteration of `render_markdown`'s `for event in parser` loop,
with the match arms in source order. -/
def step (opt : List Char → OptimizedImage) (relative_root : List Char)
    (s : RenderState) (e : MdEvent) : RenderState :=
  match e with
  | .startImage dest_url title =>
    { s with in_image := true, image_url := dest_url, image_title := title,
             image_alt := [] }
  | .endImage => endImageStep opt relative_root s
  | .text t =>
    if s.in_image then { s with image_alt := s.image_alt ++ t }
    else { s with events := s.events ++ [.text t] }
  | .code t =>
    if s.in_image then { s with image_alt := s.image_alt ++ t }
    else { s with events := s.events ++ [.code t] }
  | e =>
    if s.in_image then s
    else { s with events := s.events ++ [e] }

/-- The rewritten event stream `render_markdown` hands to `html::push_html`. -/
def render_markdown (opt : List Char → OptimizedImage) (relative_root : List Char)
    (stream : List MdEvent) : List MdEvent :=
  (stream.foldl (step opt relative_root) initRenderState).events

/-- Recognizer for `End(TagEnd::Image)` events. -/
def isEndImage : MdEvent → Bool
  | .endImage => true
  | _ => false

/-- Recognizer for the two image-boundary event shapes the loop intercepts. -/
def isImageBoundary : MdEvent → Bool
  | .startImage .. => true
  | .endImage => true
  | _ => false

/-! ## src/error.rs : BuildResult -/

/-- `BuildSummary` -/
structure BuildSummary where
  posts_built : Nat
  posts_skipped : Nat
  warnings : List BuildError
  deriving DecidableEq, Repr

/-- `BuildResult` -/
structure BuildResult where
  successes : Nat
  failures : List BuildError
  deriving Repr

/-- `BuildResult::finalize`. The Rust loop returns
`failures.into_iter().find(|e| !e.is_recoverable()).unwrap()` as soon as any
non-recoverable failure exists, i.e. the first non-recoverable failure. -/
def BuildResult.finalize (r : BuildResult) : Except BuildError BuildSummary :=
  match r.failures.find? (fun e => !e.is_recoverable) with
  | some e => .error e
  | none =>
    if r.successes = 0 && !r.failures.isEmpty then
      .error (.NoValidPosts "content")
    else
      .ok ⟨r.successes, r.failures.length, r.failures⟩

/-! ## Theorems: escaping (C1, C10) -/

lemma escapeChar_eq_self (c : Char) (h : c ∉ metaChars) : escapeChar c = [c] := by
  simp only [metaChars, List.mem_cons, List.not_mem_nil, or_false, not_or] at h
  obtain ⟨h1, h2, h3, h4, h5⟩ := h
  simp [escapeChar, h1, h2, h3, h4, h5]

lemma escapeChar_no_raw (c : Char) :
    ∀ d ∈ escapeChar c, d ∉ (['<', '>', '"', '\''] : List Char) := by
  unfold escapeChar
  split_ifs with h1 h2 h3 h4 h5
  · decide
  · decide
  · decide
  · decide
  · decide
  · intro d hd
    simp only [List.mem_singleton] at hd
    subst hd
    simp [h2, h3, h4, h5]

lemma escape_of_no_meta (s : List Char) (h : ∀ c ∈ s, c ∉ metaChars) :
    escape s = s := by
  induction s with
  | nil => rfl
  | cons c cs ih =>
    have hc := escapeChar_eq_self c (h c (List.mem_cons_self c cs))
    have hcs := ih fun x hx => h x (List.mem_cons_of_mem c hx)
    simp [escape, List.flatMap_cons, hc] at hcs ⊢
    simpa [escape] using hcs

/-- Claim C1: `HtmlSafe::escape` is a character-by-character replacement of
exactly the five metacharacters, every other character passes through
unchanged; hence it is the identity on strings with none of them, and its
output contains no raw `<`, `>`, `"` or `'`. -/
theorem C1_escape_behavior (s : List Char) :
    escapeChar '&' = "&amp;".toList ∧
    escapeChar '<' = "&lt;".toList ∧
    escapeChar '>' = "&gt;".toList ∧
    escapeChar '"' = "&quot;".toList ∧
    escapeChar '\'' = "&#x27;".toList ∧
    (∀ c, c ∉ metaChars → escapeChar c = [c]) ∧
    (HtmlSafe.escape s).val = s.flatMap escapeChar ∧
    ((∀ c ∈ s, c ∉ metaChars) → (HtmlSafe.escape s).val = s) ∧
    (∀ d ∈ (HtmlSafe.escape s).val, d ∉ (['<', '>', '"', '\''] : List Char)) := by
  refine ⟨rfl, rfl, rfl, rfl, rfl, escapeChar_eq_self, rfl, escape_of_no_meta s, ?_⟩
  intro d hd
  rw [show (HtmlSafe.escape s).val = s.flatMap escapeChar from rfl,
    List.mem_flatMap] at hd
  obtain ⟨c, _, hdc⟩ := hd
  exact escapeChar_no_raw c d hdc

/-- Witness for C1 at concrete inputs. -/
theorem C1_escape_behavior_witness :
    (HtmlSafe.escape ['a', 'b', '1']).val = ['a', 'b', '1'] :=
  (C1_escape_behavior ['a', 'b', '1']).2.2.2.2.2.2.2.1 (by decide)

/-- Claim C10: `HtmlSafe::from_trusted` always succeeds with contents exactly
the input, performing no validation or escaping — in particular a raw `<`
survives into the wrapper, so the escaped-content invariant is not enforced
by construction. -/
theorem C10_from_trusted (s : List Char) :
    (HtmlSafe.from_trusted s).val = s ∧
    ∃ t, ∃ d ∈ (HtmlSafe.from_trusted t).val,
      d ∈ (['<', '>', '"', '\''] : List Char) :=
  ⟨rfl, ['<'], '<', by decide, by decide⟩

/-! ## Theorems: tag validation (C2, C3) -/

lemma tagNew_empty (raw : List Char) (h : rustTrim raw = []) :
    Tag.new raw = .error (.InvalidTag (String.mk raw) "tag is empty") := by
  simp [Tag.new, h]

lemma tagNew_long (raw : List Char) (hne : rustTrim raw ≠ [])
    (hlen : utf8Len (rustTrim raw) > 50) :
    Tag.new raw = .error (.InvalidTag (String.mk raw) "tag exceeds 50 characters") := by
  have h1 : (rustTrim raw).isEmpty = false := by
    simpa [List.isEmpty_iff] using hne
  simp [Tag.new, h1, Tag.MAX_LENGTH, hlen]

lemma tagNew_forbidden (raw : List Char) (hne : rustTrim raw ≠ [])
    (hlen : utf8Len (rustTrim raw) ≤ 50)
    (hc : ∃ c ∈ rustTrim raw, c ∈ Tag.FORBIDDEN_CHARS) :
    Tag.new raw =
      .error (.InvalidTag (String.mk raw) "tag contains HTML special characters") := by
  have h1 : (rustTrim raw).isEmpty = false := by
    simpa [List.isEmpty_iff] using hne
  have h2 : ¬utf8Len (rustTrim raw) > Tag.MAX_LENGTH := by
    simp [Tag.MAX_LENGTH]; omega
  simp [Tag.new, h1, h2]
  exact hc

lemma tagNew_ok (raw : List Char) (hne : rustTrim raw ≠ [])
    (hlen : utf8Len (rustTrim raw) ≤ 50)
    (hc : ∀ c ∈ rustTrim raw, c ∉ Tag.FORBIDDEN_CHARS) :
    Tag.new raw = .ok ⟨rustTrim raw⟩ := by
  have h1 : (rustTrim raw).isEmpty = false := by
    simpa [List.isEmpty_iff] using hne
  have h2 : ¬utf8Len (rustTrim raw) > Tag.MAX_LENGTH := by
    simp [Tag.MAX_LENGTH]; omega
  simp [Tag.new, h1, h2]
  exact hc

/-- Claim C2 counterexample: for the 51-character input `"<<<…<"`, whose
trimmed form contains the forbidden character `<` and is also longer than 50,
`Tag::new` fails with the length reason, not the forbidden-character reason:
the length check runs first, so its reason takes precedence. -/
theorem C2_precedence_counterexample :
    Tag.new (List.replicate 51 '<') =
      .error (.InvalidTag (String.mk (List.replicate 51 '<'))
        "tag exceeds 50 characters") ∧
    '<' ∈ rustTrim (List.replicate 51 '<') ∧
    '<' ∈ Tag.FORBIDDEN_CHARS ∧
    "tag exceeds 50 characters" ≠ "tag contains HTML special characters" := by
  exact ⟨rfl, by decide, by decide, by decide⟩

/-- Claim C2 (amended): when the trimmed form contains a forbidden character,
`Tag::new` fails with the forbidden-character reason only if the trimmed form
is also within the 50-byte length limit; when it is longer than 50, the
length reason takes precedence over the forbidden-character reason. -/
theorem C2_precedence (raw : List Char) (hne : rustTrim raw ≠ [])
    (hc : ∃ c ∈ rustTrim raw, c ∈ Tag.FORBIDDEN_CHARS) :
    (utf8Len (rustTrim raw) ≤ 50 →
      Tag.new raw =
        .error (.InvalidTag (String.mk raw) "tag contains HTML special characters")) ∧
    (utf8Len (rustTrim raw) > 50 →
      Tag.new raw =
        .error (.InvalidTag (String.mk raw) "tag exceeds 50 characters")) :=
  ⟨fun hlen => tagNew_forbidden raw hne hlen hc,
   fun hlen => tagNew_long raw hne hlen⟩

/-- Witness for C2 at concrete inputs. -/
theorem C2_precedence_witness :
    Tag.new ['a', '<'] =
      .error (.InvalidTag "a<" "tag contains HTML special characters") :=
  (C2_precedence ['a', '<'] (by decide) ⟨'<', by decide, by decide⟩).1 (by decide)

/-- Claim C3 counterexample: `"€€€€€€€€€€€€€€€€€"` (17 characters, each 3
UTF-8 bytes) is its own trimmed form, has at most 50 characters and no
forbidden character, yet `Tag::new` rejects it with the length reason:
the length check compares UTF-8 bytes (`str::len`), not characters. -/
theorem C3_length_counterexample :
    Tag.new (List.replicate 17 '€') =
      .error (.InvalidTag (String.mk (List.replicate 17 '€'))
        "tag exceeds 50 characters") ∧
    rustTrim (List.replicate 17 '€') = List.replicate 17 '€' ∧
    (List.replicate 17 '€').length ≤ 50 ∧
    (∀ c ∈ List.replicate 17 '€', c ∉ Tag.FORBIDDEN_CHARS) := by
  exact ⟨rfl, by decide, by decide, by decide⟩

/-- Claim C3 (amended): `Tag::new` is total: it trims whitespace, fails with
the empty reason on an empty trimmed form, fails with the length reason when
the trimmed form's UTF-8 byte length (not its character count) exceeds 50,
fails with the forbidden-character reason when any of `< > & " ' /` remain,
and otherwise succeeds with contents exactly the trimmed input. -/
theorem C3_tag_new_total (raw : List Char) :
    (rustTrim raw = [] →
      Tag.new raw = .error (.InvalidTag (String.mk raw) "tag is empty")) ∧
    (rustTrim raw ≠ [] → utf8Len (rustTrim raw) > 50 →
      Tag.new raw =
        .error (.InvalidTag (String.mk raw) "tag exceeds 50 characters")) ∧
    (rustTrim raw ≠ [] → utf8Len (rustTrim raw) ≤ 50 →
      (∃ c ∈ rustTrim raw, c ∈ Tag.FORBIDDEN_CHARS) →
      Tag.new raw =
        .error (.InvalidTag (String.mk raw) "tag contains HTML special characters")) ∧
    (rustTrim raw ≠ [] → utf8Len (rustTrim raw) ≤ 50 →
      (∀ c ∈ rustTrim raw, c ∉ Tag.FORBIDDEN_CHARS) →
      Tag.new raw = .ok ⟨rustTrim raw⟩) :=
  ⟨tagNew_empty raw, tagNew_long raw, tagNew_forbidden raw, tagNew_ok raw⟩

/-- Witness for C3 at concrete inputs. -/
theorem C3_tag_new_total_witness :
    Tag.new [' ', 'R', 'u', 's', 't', ' '] = .ok ⟨['R', 'u', 's', 't']⟩ :=
  (C3_tag_new_total [' ', 'R', 'u', 's', 't', ' ']).2.2.2
    (by decide) (by decide) (by decide)

/-! ## Theorems: dimension parsing (C4) -/

lemma parseDigits_some {t : List Char} {v : Nat} (h : parseDigits t = some v) :
    t ≠ [] ∧ t.all Char.isDigit = true := by
  by_cases h1 : t.isEmpty = true
  · unfold parseDigits at h
    rw [if_pos h1] at h
    exact absurd h (by simp)
  · by_cases h2 : t.all Char.isDigit = true
    · exact ⟨by simpa [List.isEmpty_iff] using h1, h2⟩
    · unfold parseDigits at h
      rw [if_neg h1, if_neg h2] at h
      exact absurd h (by simp)

lemma parseU32_digits {s : List Char} {v : Nat} (h : parseU32 s = some v) :
    ∃ t, (s = t ∨ s = '+' :: t) ∧ t ≠ [] ∧ t.all Char.isDigit = true := by
  unfold parseU32 at h
  split at h
  · next rest => exact ⟨rest, Or.inr rfl, parseDigits_some h⟩
  · exact ⟨s, Or.inl rfl, parseDigits_some h⟩

lemma not_x_of_parseU32 {s : List Char} {v : Nat} (h : parseU32 s = some v) :
    'x' ∉ s := by
  obtain ⟨t, hst, -, hdig⟩ := parseU32_digits h
  intro hx
  have hxt : 'x' ∈ t := by
    rcases hst with rfl | rfl
    · exact hx
    · rcases List.mem_cons.mp hx with h' | h'
      · exact absurd h' (by decide)
      · exact h'
  exact absurd (List.all_eq_true.mp hdig 'x' hxt) (by decide)

lemma takeWhile_to_x (wd hd : List Char) (hw : 'x' ∉ wd) :
    (wd ++ 'x' :: hd).takeWhile (fun c => c ≠ 'x') = wd := by
  induction wd with
  | nil =>
    rw [List.nil_append, List.takeWhile_cons_of_neg]
    simp
  | cons c cs ih =>
    have hc : c ≠ 'x' := fun hh => hw (hh ▸ List.mem_cons_self c cs)
    have hcs : 'x' ∉ cs := fun hh => hw (List.mem_cons_of_mem c hh)
    rw [List.cons_append,
      List.takeWhile_cons_of_pos (p := fun c => decide (c ≠ 'x')) (decide_eq_true hc),
      ih hcs]

lemma dropWhile_to_x (wd hd : List Char) (hw : 'x' ∉ wd) :
    (wd ++ 'x' :: hd).dropWhile (fun c => c ≠ 'x') = 'x' :: hd := by
  induction wd with
  | nil =>
    rw [List.nil_append, List.dropWhile_cons_of_neg]
    simp
  | cons c cs ih =>
    have hc : c ≠ 'x' := fun hh => hw (hh ▸ List.mem_cons_self c cs)
    have hcs : 'x' ∉ cs := fun hh => hw (List.mem_cons_of_mem c hh)
    rw [List.cons_append,
      List.dropWhile_cons_of_pos (p := fun c => decide (c ≠ 'x')) (decide_eq_true hc),
      ih hcs]

lemma dropWhile_nil_of_no_x (l : List Char) (h : 'x' ∉ l) :
    l.dropWhile (fun c => c ≠ 'x') = [] := by
  induction l with
  | nil => rfl
  | cons c cs ih =>
    have hc : c ≠ 'x' := fun hh => h (hh ▸ List.mem_cons_self c cs)
    have hcs : 'x' ∉ cs := fun hh => h (List.mem_cons_of_mem c hh)
    rw [List.dropWhile_cons_of_pos (p := fun c => decide (c ≠ 'x')) (decide_eq_true hc),
      ih hcs]

lemma pd_wxh (title : List Char) (img_w img_h : Nat) (wd hd : List Char) (w h : Nat)
    (hsplit : rustTrim title = wd ++ 'x' :: hd)
    (hw : parseU32 wd = some w) (hh : parseU32 hd = some h) :
    parse_dimensions_or_image title img_w img_h = (widthAttr w, heightAttr h) := by
  have hnx : 'x' ∉ wd := not_x_of_parseU32 hw
  simp only [parse_dimensions_or_image]
  rw [hsplit, takeWhile_to_x wd hd hnx, dropWhile_to_x wd hd hnx]
  simp [hw, hh]

lemma pd_single (title : List Char) (img_w img_h : Nat) (w : Nat)
    (hw : parseU32 (rustTrim title) = some w) :
    parse_dimensions_or_image title img_w img_h = (widthAttr w, []) := by
  have hnx : 'x' ∉ rustTrim title := not_x_of_parseU32 hw
  simp only [parse_dimensions_or_image]
  rw [dropWhile_nil_of_no_x _ hnx]
  simp [hw]

lemma pd_fallthrough (title : List Char) (img_w img_h : Nat)
    (hnd : is_dimension_spec title = false) :
    parse_dimensions_or_image title img_w img_h =
      if img_w > 0 && img_h > 0 then (widthAttr img_w, heightAttr img_h)
      else ([], []) := by
  simp only [is_dimension_spec] at hnd
  simp only [parse_dimensions_or_image]
  by_cases hclean : rustTrim title = []
  · rw [hclean]
    rfl
  · have hce : (rustTrim title).isEmpty = false := by
      simpa [List.isEmpty_iff] using hclean
    rw [hce] at hnd
    rw [if_neg (by simp)] at hnd
    by_cases hrest : (rustTrim title).dropWhile (fun c => c ≠ 'x') = []
    · have hre : ((rustTrim title).dropWhile (fun c => c ≠ 'x')).isEmpty = true := by
        simpa [List.isEmpty_iff] using hrest
      rw [hre] at hnd
      rw [if_neg (by simp)] at hnd
      have hpc : parseU32 (rustTrim title) = none := by
        cases hv : parseU32 (rustTrim title) with
        | none => rfl
        | some v => rw [hv] at hnd; simp at hnd
      rw [hrest, hpc]
      rfl
    · have hre : ((rustTrim title).dropWhile (fun c => c ≠ 'x')).isEmpty = false := by
        simpa [List.isEmpty_iff] using hrest
      rw [hre] at hnd
      rw [if_pos (by simp)] at hnd
      have hxc : 'x' ∈ rustTrim title := by
        by_contra hx
        exact hrest (dropWhile_nil_of_no_x _ hx)
      have hpc : parseU32 (rustTrim title) = none := by
        cases hv : parseU32 (rustTrim title) with
        | none => rfl
        | some v => exact absurd hxc (not_x_of_parseU32 hv)
      rw [hre, if_neg (by simp), hpc]
      cases hw : parseU32 ((rustTrim title).takeWhile (fun c => c ≠ 'x')) with
      | some w =>
        cases hh : parseU32 (((rustTrim title).dropWhile (fun c => c ≠ 'x')).tail) with
        | some h => rw [hw, hh] at hnd; simp at hnd
        | none => rfl
      | none =>
        cases hh : parseU32 (((rustTrim title).dropWhile (fun c => c ≠ 'x')).tail) with
        | some h => rfl
        | none => rfl

/-- Claim C4: title dimension parsing. A trimmed title `"WxH"` with two
parseable decimal integers yields exactly `width="W"`/`height="H"`; a title
that is a single parseable decimal integer yields width only; any title that
is not a dimension spec (empty, non-numeric, or malformed like `"800x"`)
falls through entirely to the measured dimensions — never a partial parse —
and when the measured dimensions are the 0 sentinel both attributes are
omitted. -/
theorem C4_dimension_parsing (title : List Char) (img_w img_h : Nat) :
    (∀ wd hd w h, rustTrim title = wd ++ 'x' :: hd →
      parseU32 wd = some w → parseU32 hd = some h →
      parse_dimensions_or_image title img_w img_h = (widthAttr w, heightAttr h)) ∧
    (∀ w, parseU32 (rustTrim title) = some w →
      parse_dimensions_or_image title img_w img_h = (widthAttr w, [])) ∧
    (rustTrim title = [] → is_dimension_spec title = false) ∧
    (is_dimension_spec title = false →
      parse_dimensions_or_image title img_w img_h =
        if img_w > 0 && img_h > 0 then (widthAttr img_w, heightAttr img_h)
        else ([], [])) ∧
    (is_dimension_spec title = false → img_w = 0 → img_h = 0 →
      parse_dimensions_or_image title img_w img_h = ([], [])) := by
  refine ⟨fun wd hd w h => pd_wxh title img_w img_h wd hd w h,
          fun w => pd_single title img_w img_h w, ?_,
          pd_fallthrough title img_w img_h, ?_⟩
  · intro hnil
    simp [is_dimension_spec, hnil]
  · intro hnd hw0 hh0
    rw [pd_fallthrough title img_w img_h hnd, hw0, hh0]
    rfl

/-- Witness for C4 at concrete inputs. -/
theorem C4_dimension_parsing_witness :
    parse_dimensions_or_image "800x600".toList 1024 768 =
      (widthAttr 800, heightAttr 600) :=
  (C4_dimension_parsing "800x600".toList 1024 768).1
    "800".toList "600".toList 800 600 (by decide) (by decide) (by decide)

/-! ## Theorems: image optimizer (C5, C6) -/

lemma optimize_image_local (fs : FSState) (src content_dir public_dir : String)
    (max_width : Nat) (stem : String)
    (hext : (rustStartsWith src "http://" || rustStartsWith src "https://") = false)
    (hsrc : fs.pathExists (pathJoin content_dir src) = true)
    (hstem : fs.fileStem (pathJoin content_dir src) = some stem) :
    optimize_image fs src content_dir public_dir max_width =
      if (fs.pathExists (pathJoin (pathJoin public_dir "images") (stem ++ ".webp")) &&
          match fs.metaMtime (pathJoin content_dir src),
            fs.metaMtime (pathJoin (pathJoin public_dir "images") (stem ++ ".webp")) with
          | some src_mtime, some dest_mtime => dest_mtime ≥ src_mtime
          | _, _ => false) = true then
        read_cached_dimensions fs
          (pathJoin (pathJoin public_dir "images") (stem ++ ".webp"))
          ("images/" ++ (stem ++ ".webp"))
      else
        process_image fs (pathJoin content_dir src)
          (pathJoin (pathJoin public_dir "images") (stem ++ ".webp"))
          ("images/" ++ (stem ++ ".webp")) max_width := by
  simp only [optimize_image, process_image]
  rw [hext, hsrc, hstem]
  rfl

/-- Claim C5: external URLs are returned unchanged with 0×0 and without any
filesystem access (the result does not depend on the filesystem state), and
a non-existing local source yields `Ok` with the original path and 0×0. -/
theorem C5_external_and_missing (fs fs' : FSState)
    (src content_dir public_dir : String) (max_width : Nat) :
    ((rustStartsWith src "http://" || rustStartsWith src "https://") = true →
      optimize_image fs src content_dir public_dir max_width =
        .ok (OptimizedImage.external src) ∧
      optimize_image fs src content_dir public_dir max_width =
        optimize_image fs' src content_dir public_dir max_width) ∧
    ((rustStartsWith src "http://" || rustStartsWith src "https://") = false →
      fs.pathExists (pathJoin content_dir src) = false →
      optimize_image fs src content_dir public_dir max_width =
        .ok (OptimizedImage.missing src)) := by
  constructor
  · intro hext
    constructor
    · simp [optimize_image, hext]
    · simp [optimize_image, hext]
  · intro hext hmiss
    simp [optimize_image, hext, hmiss]

/-- Witness for C5 at concrete inputs. -/
theorem C5_external_and_missing_witness :
    optimize_image
        ⟨fun _ => false, fun _ => none, fun _ => none, fun _ => none,
         fun d _ => d, fun _ => none, fun _ => false⟩
        "http://example.com/a.png" "content" "public" 1024 =
      .ok (OptimizedImage.external "http://example.com/a.png") :=
  ((C5_external_and_missing
      ⟨fun _ => false, fun _ => none, fun _ => none, fun _ => none,
       fun d _ => d, fun _ => none, fun _ => false⟩
      ⟨fun _ => true, fun _ => none, fun _ => none, fun _ => none,
       fun d _ => d, fun _ => none, fun _ => false⟩
      "http://example.com/a.png" "content" "public" 1024).1 (by decide)).1

/-- Claim C6: for an existing local source, if the destination exists and its
mtime is at least the source's, `optimize_image` returns exactly what
`read_cached_dimensions` reads from the cached file's header and does not
depend on the decode/resize/encode capabilities; if the destination is
missing or strictly older, it runs the processing path. -/
theorem C6_cache_hit_miss (fs : FSState) (src content_dir public_dir : String)
    (max_width : Nat) (stem : String) (dest_path rel_path : String)
    (hext : (rustStartsWith src "http://" || rustStartsWith src "https://") = false)
    (hsrc : fs.pathExists (pathJoin content_dir src) = true)
    (hstem : fs.fileStem (pathJoin content_dir src) = some stem)
    (hdest : dest_path = pathJoin (pathJoin public_dir "images") (stem ++ ".webp"))
    (hrel : rel_path = "images/" ++ (stem ++ ".webp")) :
    (∀ ts td, fs.metaMtime (pathJoin content_dir src) = some ts →
      fs.metaMtime dest_path = some td →
      fs.pathExists dest_path = true → ts ≤ td →
      optimize_image fs src content_dir public_dir max_width =
        read_cached_dimensions fs dest_path rel_path ∧
      (∀ w h, fs.headerDims dest_path = some (w, h) →
        optimize_image fs src content_dir public_dir max_width =
          .ok ⟨rel_path, w, h⟩) ∧
      (∀ fs' : FSState, fs'.pathExists = fs.pathExists →
        fs'.metaMtime = fs.metaMtime → fs'.fileStem = fs.fileStem →
        fs'.headerDims = fs.headerDims →
        optimize_image fs' src content_dir public_dir max_width =
          optimize_image fs src content_dir public_dir max_width)) ∧
    ((fs.pathExists dest_path = false ∨
      (∃ ts td, fs.metaMtime (pathJoin content_dir src) = some ts ∧
        fs.metaMtime dest_path = some td ∧ td < ts)) →
      optimize_image fs src content_dir public_dir max_width =
        process_image fs (pathJoin content_dir src) dest_path rel_path
          max_width) := by
  subst hdest
  subst hrel
  constructor
  · intro ts td hts htd hdx hle
    have hhit : (fs.pathExists (pathJoin (pathJoin public_dir "images") (stem ++ ".webp")) &&
        match fs.metaMtime (pathJoin content_dir src),
          fs.metaMtime (pathJoin (pathJoin public_dir "images") (stem ++ ".webp")) with
        | some src_mtime, some dest_mtime => dest_mtime ≥ src_mtime
        | _, _ => false) = true := by
      rw [hdx, hts, htd]
      simp [hle]
    have hmain : optimize_image fs src content_dir public_dir max_width =
        read_cached_dimensions fs
          (pathJoin (pathJoin public_dir "images") (stem ++ ".webp"))
          ("images/" ++ (stem ++ ".webp")) := by
      rw [optimize_image_local fs src content_dir public_dir max_width stem
        hext hsrc hstem, hhit]
      rfl
    refine ⟨hmain, ?_, ?_⟩
    · intro w h hhd
      rw [hmain]
      unfold read_cached_dimensions
      rw [hhd]
    · intro fs' hp hm hf hh
      have hsrc' : fs'.pathExists (pathJoin content_dir src) = true := by
        rw [hp]; exact hsrc
      have hstem' : fs'.fileStem (pathJoin content_dir src) = some stem := by
        rw [hf]; exact hstem
      rw [optimize_image_local fs' src content_dir public_dir max_width stem
        hext hsrc' hstem',
        optimize_image_local fs src content_dir public_dir max_width stem
        hext hsrc hstem, hp, hm]
      have : read_cached_dimensions fs'
          (pathJoin (pathJoin public_dir "images") (stem ++ ".webp"))
          ("images/" ++ (stem ++ ".webp")) =
        read_cached_dimensions fs
          (pathJoin (pathJoin public_dir "images") (stem ++ ".webp"))
          ("images/" ++ (stem ++ ".webp")) := by
        unfold read_cached_dimensions
        rw [hh]
      rw [this, hhit]
      rfl
  · intro hmiss
    have hcond : (fs.pathExists (pathJoin (pathJoin public_dir "images") (stem ++ ".webp")) &&
        match fs.metaMtime (pathJoin content_dir src),
          fs.metaMtime (pathJoin (pathJoin public_dir "images") (stem ++ ".webp")) with
        | some src_mtime, some dest_mtime => dest_mtime ≥ src_mtime
        | _, _ => false) = false := by
      rcases hmiss with hdx | ⟨ts, td, hts, htd, hlt⟩
      · rw [hdx]
        simp
      · rw [hts, htd]
        simp only [Bool.and_eq_false_iff]
        right
        simpa using Nat.not_le.mpr hlt
    rw [optimize_image_local fs src content_dir public_dir max_width stem
      hext hsrc hstem, hcond]
    simp

/-- Witness for C6 at a concrete filesystem state (cache hit). -/
theorem C6_cache_hit_miss_witness :
    optimize_image
        ⟨fun _ => true, fun _ => some 3, fun _ => some "a", fun _ => none,
         fun d _ => d, fun _ => some (7, 8), fun _ => false⟩
        "a.png" "content" "public" 100 =
      .ok ⟨"images/" ++ ("a" ++ ".webp"), 7, 8⟩ :=
  (((C6_cache_hit_miss
      ⟨fun _ => true, fun _ => some 3, fun _ => some "a", fun _ => none,
       fun d _ => d, fun _ => some (7, 8), fun _ => false⟩
      "a.png" "content" "public" 100 "a"
      (pathJoin (pathJoin "public" "images") ("a" ++ ".webp"))
      ("images/" ++ ("a" ++ ".webp"))
      (by decide) rfl rfl rfl rfl).1 3 3 rfl rfl rfl
      (Nat.le_refl 3)).2).1 7 8 rfl

/-! ## Theorems: render_markdown event loop (C8, C9) -/

lemma endImage_events (opt : List Char → OptimizedImage) (rr : List Char)
    (s : RenderState) :
    (step opt rr s .endImage).events =
      s.events ++ [.html (imgHtml
        (escape (if (opt s.image_url).is_external then (opt s.image_url).rel_path.toList
          else rr ++ (opt s.image_url).rel_path.toList))
        (escape s.image_alt)
        (parse_dimensions_or_image s.image_title (opt s.image_url).width
          (opt s.image_url).height).1
        (parse_dimensions_or_image s.image_title (opt s.image_url).width
          (opt s.image_url).height).2
        (if !is_dimension_spec s.image_title && !s.image_title.isEmpty then
          "title=\"".toList ++ escape s.image_title ++ ['"'] else [])
        (if s.first_image then eagerAttrs else lazyAttrs))] := by
  show (endImageStep opt rr s).events = _
  unfold endImageStep
  rfl

/-- Claim C8: inside an image node, text/code events are diverted to the
alt-text accumulator and never emitted; every other event is suppressed
inside an image node; outside an image node, non-boundary events pass
through untouched; and the figure markup emitted at image end carries the
HTML-escape of the accumulated alt text in its alt slot. -/
theorem C8_image_node_invariant (opt : List Char → OptimizedImage)
    (rr : List Char) (s : RenderState) (t : List Char) (e : MdEvent) :
    (s.in_image = true →
      (step opt rr s (.text t)).events = s.events ∧
      (step opt rr s (.text t)).image_alt = s.image_alt ++ t ∧
      (step opt rr s (.code t)).events = s.events ∧
      (step opt rr s (.code t)).image_alt = s.image_alt ++ t) ∧
    (s.in_image = true → ∀ x, (step opt rr s (.html x)).events = s.events) ∧
    (s.in_image = true → ∀ n, (step opt rr s (.other n)).events = s.events) ∧
    (s.in_image = false → isImageBoundary e = false →
      step opt rr s e = { s with events := s.events ++ [e] }) ∧
    (∃ fsrc wa ha ta la, (step opt rr s .endImage).events =
      s.events ++ [.html (imgHtml fsrc (escape s.image_alt) wa ha ta la)]) := by
  refine ⟨?_, ?_, ?_, ?_, ?_⟩
  · intro hin
    refine ⟨?_, ?_, ?_, ?_⟩ <;> simp [step, hin]
  · intro hin x
    simp [step, hin]
  · intro hin n
    simp [step, hin]
  · intro hout hnb
    cases e with
    | startImage d ti => simp [isImageBoundary] at hnb
    | endImage => simp [isImageBoundary] at hnb
    | text x => simp [step, hout]
    | code x => simp [step, hout]
    | html x => simp [step, hout]
    | other n => simp [step, hout]
  · exact ⟨_, _, _, _, _, endImage_events opt rr s⟩

/-- Witness for C8 at a concrete state and event. -/
theorem C8_image_node_invariant_witness :
    (step (fun _ => OptimizedImage.missing "u") []
        ⟨[], true, [], [], ['a'], true⟩ (.text ['b'])).events = [] ∧
    (step (fun _ => OptimizedImage.missing "u") []
        ⟨[], true, [], [], ['a'], true⟩ (.text ['b'])).image_alt = ['a', 'b'] :=
  ⟨((C8_image_node_invariant (fun _ => OptimizedImage.missing "u") []
      ⟨[], true, [], [], ['a'], true⟩ ['b'] .endImage).1 rfl).1,
   (((C8_image_node_invariant (fun _ => OptimizedImage.missing "u") []
      ⟨[], true, [], [], ['a'], true⟩ ['b'] .endImage).1 rfl).2).1⟩

lemma step_first_image (opt : List Char → OptimizedImage) (rr : List Char)
    (s : RenderState) (e : MdEvent) :
    (step opt rr s e).first_image = (s.first_image && !isEndImage e) := by
  cases e with
  | startImage d ti => simp [step, isEndImage]
  | endImage => simp [step, endImageStep, isEndImage]
  | text x => by_cases h : s.in_image = true <;> simp [step, isEndImage, h]
  | code x => by_cases h : s.in_image = true <;> simp [step, isEndImage, h]
  | html x => by_cases h : s.in_image = true <;> simp [step, isEndImage, h]
  | other n => by_cases h : s.in_image = true <;> simp [step, isEndImage, h]

lemma foldl_first_image (opt : List Char → OptimizedImage) (rr : List Char)
    (p : List MdEvent) (s : RenderState) :
    (p.foldl (step opt rr) s).first_image =
      (s.first_image && p.all (fun e => !isEndImage e)) := by
  induction p generalizing s with
  | nil => simp
  | cons e es ih =>
    rw [List.foldl_cons, ih, step_first_image, List.all_cons, Bool.and_assoc]

/-- Claim C9: in `render_markdown`'s loop, after processing any prefix `p` of
the event stream, the figure markup emitted at the next image end carries the
eager/high-priority loading attributes exactly when `p` contains no earlier
image end (i.e. only the first image in document order is eager; every later
one gets the lazy/async attributes) — the choice depends only on the count of
earlier image ends, not on any property of the image. -/
theorem C9_first_image_positional (opt : List Char → OptimizedImage)
    (rr : List Char) (p : List MdEvent) :
    ∃ fsrc alt wa ha ta,
      (step opt rr (p.foldl (step opt rr) initRenderState) .endImage).events =
        (p.foldl (step opt rr) initRenderState).events ++
          [.html (imgHtml fsrc alt wa ha ta
            (if p.countP (fun e => isEndImage e) = 0 then eagerAttrs
             else lazyAttrs))] := by
  by_cases h : p.countP (fun e => isEndImage e) = 0
  · have hfi : (p.foldl (step opt rr) initRenderState).first_image = true := by
      rw [foldl_first_image]
      have hall : ∀ e ∈ p, ¬isEndImage e = true := by
        intro e he
        exact (List.countP_eq_zero.mp h) e he
      simp [initRenderState, List.all_eq_true]
      intro e he
      simpa using hall e he
    have he := endImage_events opt rr (p.foldl (step opt rr) initRenderState)
    rw [hfi, if_pos rfl] at he
    rw [if_pos h]
    exact ⟨_, _, _, _, _, he⟩
  · have hfi : (p.foldl (step opt rr) initRenderState).first_image = false := by
      rw [foldl_first_image]
      obtain ⟨e, he, hend⟩ := List.countP_pos_iff.mp (Nat.pos_of_ne_zero h)
      have : p.all (fun e => !isEndImage e) = false := by
        rw [List.all_eq_false]
        exact ⟨e, he, by simp [hend]⟩
      simp [this]
    have he := endImage_events opt rr (p.foldl (step opt rr) initRenderState)
    rw [hfi] at he
    simp only [Bool.false_eq_true, if_false] at he
    rw [if_neg h]
    exact ⟨_, _, _, _, _, he⟩

/-! ## Theorems: build finalization (C7) -/

lemma find?_first {α : Type} (p : α → Bool) (l : List α) (e : α)
    (h : l.find? p = some e) :
    ∃ l₁ l₂, l = l₁ ++ e :: l₂ ∧ (∀ x ∈ l₁, p x = false) ∧ p e = true := by
  induction l with
  | nil => simp [List.find?] at h
  | cons a as ih =>
    cases hpa : p a with
    | true =>
      rw [List.find?_cons_of_pos as hpa] at h
      obtain rfl : a = e := by injection h
      exact ⟨[], as, rfl, by simp, hpa⟩
    | false =>
      rw [List.find?_cons_of_neg as (by simp [hpa])] at h
      obtain ⟨l₁, l₂, rfl, h1, h2⟩ := ih h
      exact ⟨a :: l₁, l₂, rfl, by simpa [hpa] using h1, h2⟩

lemma find?_of_exists {α : Type} (p : α → Bool) (l : List α)
    (h : ∃ x ∈ l, p x = true) : ∃ e, l.find? p = some e := by
  induction l with
  | nil => simp at h
  | cons a as ih =>
    cases hpa : p a with
    | true => exact ⟨a, List.find?_cons_of_pos as hpa⟩
    | false =>
      obtain ⟨x, hx, hpx⟩ := h
      rcases List.mem_cons.mp hx with rfl | hx'
      · exact absurd hpx (by simp [hpa])
      · obtain ⟨e, he⟩ := ih ⟨x, hx', hpx⟩
        have hneg : ¬p a = true := by simp [hpa]
        exact ⟨e, by rw [List.find?_cons_of_neg as hneg]; exact he⟩

lemma finalize_none_nonrec (r : BuildResult)
    (hall : ∀ e ∈ r.failures, e.is_recoverable = true) :
    r.failures.find? (fun e => !e.is_recoverable) = none := by
  rw [List.find?_eq_none]
  intro x hx
  simp [hall x hx]

/-- Claim C7: `BuildResult::finalize` returns the first non-recoverable
failure in recorded order when one exists (even with recorded successes);
otherwise `NoValidPosts` when there are zero successes and at least one
failure; otherwise a summary with `posts_built` = success count,
`posts_skipped` = failure count, and the recorded (all-recoverable) failures
as warnings — and exactly `ParseFailed`, `InvalidTag` and `ImageOptFailed`
are classified recoverable. -/
theorem C7_finalize (r : BuildResult) :
    ((∃ e ∈ r.failures, e.is_recoverable = false) →
      ∃ pre e post, r.failures = pre ++ e :: post ∧
        (∀ x ∈ pre, x.is_recoverable = true) ∧ e.is_recoverable = false ∧
        r.finalize = .error e) ∧
    ((∀ e ∈ r.failures, e.is_recoverable = true) → r.successes = 0 →
      r.failures ≠ [] →
      r.finalize = .error (.NoValidPosts "content")) ∧
    ((∀ e ∈ r.failures, e.is_recoverable = true) →
      (r.successes ≠ 0 ∨ r.failures = []) →
      r.finalize = .ok ⟨r.successes, r.failures.length, r.failures⟩) ∧
    (∀ p m t rs,
      BuildError.is_recoverable (.ParseFailed p m) = true ∧
      BuildError.is_recoverable (.InvalidTag t rs) = true ∧
      BuildError.is_recoverable (.ImageOptFailed p) = true ∧
      BuildError.is_recoverable (.ContentNotReadable p) = false ∧
      BuildError.is_recoverable (.OutputNotWritable p) = false ∧
      BuildError.is_recoverable (.NoValidPosts p) = false ∧
      BuildError.is_recoverable (.Internal m) = false) := by
  refine ⟨?_, ?_, ?_, ?_⟩
  · rintro ⟨x, hx, hpx⟩
    obtain ⟨e, he⟩ := find?_of_exists (fun e => !e.is_recoverable) r.failures
      ⟨x, hx, by simp [hpx]⟩
    obtain ⟨pre, post, heq, hpre, hpe⟩ :=
      find?_first (fun e => !e.is_recoverable) r.failures e he
    refine ⟨pre, e, post, heq, ?_, by simpa using hpe, ?_⟩
    · intro y hy
      simpa using hpre y hy
    · unfold BuildResult.finalize
      rw [he]
  · intro hall hzero hne
    unfold BuildResult.finalize
    rw [finalize_none_nonrec r hall]
    rw [if_pos]
    simp [hzero, List.isEmpty_iff, hne]
  · intro hall hok
    unfold BuildResult.finalize
    rw [finalize_none_nonrec r hall]
    rw [if_neg]
    simp only [Bool.and_eq_true, decide_eq_true_eq, Bool.not_eq_true',
      List.isEmpty_iff, not_and]
    rcases hok with hs | hf
    · intro hzero
      exact absurd hzero hs
    · intro hzero
      simp [List.isEmpty_iff, hf]
  · intro p m t rs
    exact ⟨rfl, rfl, rfl, rfl, rfl, rfl, rfl⟩

/-- Witness for C7 at a concrete build record. -/
theorem C7_finalize_witness :
    BuildResult.finalize ⟨2, [.InvalidTag "a" "r"]⟩ =
      .ok ⟨2, 1, [.InvalidTag "a" "r"]⟩ :=
  (C7_finalize ⟨2, [.InvalidTag "a" "r"]⟩).2.2.1
    (by intro e he; simp at he; simp [he, BuildError.is_recoverable])
    (Or.inl (by decide))

end SSG
